import Mathlib

/-!
Verification development for the OrbitWatch backend
(`backend/app.py`, `backend/anvil_service.py`, `backend/db.py`).

The Python code is shallowly embedded: BSON/JSON values become the
inductive `Value`; a Python dict / BSON document becomes a `Doc`, an
association list of string keys to values; the three MongoDB collections
(`tle_data`, `sessions`, `api_logs`) plus the store's id generator become
the record `DbState`.  Flask handlers become pure functions from their
request data and the current `DbState` to an `HttpResponse` and a new
`DbState`.  MongoDB cursor operations (`find`, `sort`, `limit`,
`insert_one`, `insert_many`) are modelled by list operations following the
driver's documented semantics: `find` filters by field equality, `sort`
on a key descending, `limit 0` means "no limit" and a negative limit acts
like its absolute value, inserts append and assign a fresh `_id` to
documents lacking one.  Wall-clock time is an abstract tick count `Nat`
threaded as a parameter.
-/

namespace OrbitWatch

/-- A BSON/JSON value as it occurs in this system: `null`, strings,
integers, booleans, datetimes (abstract tick count, as produced by
`datetime.now`), and store-assigned object ids. -/
inductive Value where
  | null
  | str (s : String)
  | int (n : Int)
  | bool (b : Bool)
  | dt (ticks : Nat)
  | oid (n : Nat)
deriving DecidableEq, Repr

/-- A document (Python dict): association list of field names to values. -/
abbrev Doc := List (String × Value)

/-- Lookup `d[k]`: the value at the first occurrence of key `k`. -/
def docGet : Doc → String → Option Value
  | [], _ => none
  | p :: rest, k => if p.1 = k then some p.2 else docGet rest k

/-- Membership `k in d`: the Python dict membership test. -/
def docContains (d : Doc) (k : String) : Bool :=
  d.any (fun p => p.1 = k)

/-- Assignment `d[k] = v`: Python dict update — overwrite the first occurrence
of `k`, or append the binding if `k` is absent. -/
def docSet (d : Doc) (k : String) (v : Value) : Doc :=
  match d with
  | [] => [(k, v)]
  | p :: rest => if p.1 = k then (k, v) :: rest else p :: docSet rest k v

/-- Lookup `d[k]` with a `null` default, for places where the Python code would
raise `KeyError` on a missing key (unreachable for stored documents,
which always carry the key). -/
def docGetd (d : Doc) (k : String) : Value :=
  (docGet d k).getD .null

/-- Python `str()` of a value (abstract rendering; only injectivity and
the fact that the result is a string matter to the claims). -/
def valueStr : Value → String
  | .null => "None"
  | .str s => s
  | .int n => toString n
  | .bool b => if b then "True" else "False"
  | .dt t => "datetime-" ++ toString t
  | .oid n => "oid-" ++ toString n

/-- Rendering `datetime.isoformat()` of an abstract tick count. -/
def isoDt (t : Nat) : String := "iso-" ++ toString t

/-- Is the value datetime-typed? -/
def Value.isDt : Value → Bool
  | .dt _ => true
  | _ => false

/-- The document store: the three collections of `db.py` plus the
driver's fresh-object-id counter. -/
structure DbState where
  tle_data : List Doc
  sessions : List Doc
  api_logs : List Doc
  nextId : Nat
deriving DecidableEq, Repr

/-- The driver assigns a fresh `_id` to an inserted document that lacks
one (a caller-supplied `_id` is kept). -/
def ensureId (n : Nat) (d : Doc) : Doc :=
  if docContains d "_id" then d else docSet d "_id" (.oid n)

/-- Semantics of `insert_many` on a bare list: assign ids sequentially. -/
def withIds (n : Nat) : List Doc → List Doc
  | [] => []
  | d :: rest => ensureId n d :: withIds (n + 1) rest

/-- A MongoDB equality filter: every `(field, value)` pair of the query
document must match the document's field exactly. -/
def matchesQuery (q : List (String × Value)) (d : Doc) : Bool :=
  q.all (fun kv => docGet d kv.1 = some kv.2)

/-- Descending insertion of a document into a list already sorted
descending by `key` (models the store's sort; tie order is unspecified
by MongoDB, so any stable realization is faithful). -/
def insertDescBy (key : Doc → Nat) (d : Doc) : List Doc → List Doc
  | [] => [d]
  | e :: rest =>
    if key e ≤ key d then d :: e :: rest else e :: insertDescBy key d rest

/-- Cursor `.sort(field, -1)`: sort a result list descending by `key`. -/
def sortDescBy (key : Doc → Nat) : List Doc → List Doc
  | [] => []
  | d :: rest => insertDescBy key d (sortDescBy key rest)

/-- Cursor `.limit(n)` semantics: `limit 0` disables the limit entirely;
a negative limit returns at most its absolute value of documents. -/
def applyLimit (n : Int) (l : List Doc) : List Doc :=
  if n = 0 then l else l.take n.natAbs

/-- Sort key for `.sort("stored_at", -1)`: the tick count of a
datetime-typed `stored_at` field (0 if absent or differently typed;
system-stored TLE documents always carry a datetime `stored_at`). -/
def storedAtKey (d : Doc) : Nat :=
  match docGet d "stored_at" with
  | some (.dt t) => t
  | _ => 0

/-- Sort key for `.sort("timestamp", -1)` over API-log entries. -/
def timestampKey (d : Doc) : Nat :=
  match docGet d "timestamp" with
  | some (.dt t) => t
  | _ => 0

/-- Python `int()` applied to a string: optional surrounding whitespace,
optional sign, then at least one decimal digit; `none` models the
`ValueError` raised otherwise. -/
def digitsVal (cs : List Char) : Option Nat :=
  if cs ≠ [] ∧ cs.all Char.isDigit then
    some (cs.foldl (fun a c => a * 10 + (c.toNat - 48)) 0)
  else none

def isPySpace (c : Char) : Bool :=
  c = ' ' || c = '\t' || c = '\n' || c = '\r'

def stripChars (cs : List Char) : List Char :=
  ((cs.dropWhile isPySpace).reverse.dropWhile isPySpace).reverse

def pyInt (s : String) : Option Int :=
  match stripChars s.data with
  | [] => none
  | c :: rest =>
    if c = '-' then (digitsVal rest).map (fun n => -(n : Int))
    else if c = '+' then (digitsVal rest).map (fun n => (n : Int))
    else (digitsVal (c :: rest)).map (fun n => (n : Int))

/-- Bodies of the JSON responses the handlers build with `jsonify`. -/
inductive HttpBody where
  | errObj (msg : String)
  | msgObj (msg : String)
  | loginObj (message : String) (sessionId : String)
  | docs (l : List Doc)
deriving DecidableEq, Repr

structure HttpResponse where
  status : Nat
  body : HttpBody
deriving DecidableEq, Repr

/-- The request data the audit logger reads: path, method, client
address, user agent (None possible), `content_length` (None or a byte
count), and `g.start_time` if the pre-hook ran. -/
structure Request where
  path : String
  method : String
  remoteAddr : String
  userAgent : Option String
  contentLength : Option Nat
  startTime : Option Nat
deriving DecidableEq, Repr

/-- Body `request.json` for POST /api/tle: absent/null, a single JSON object,
or an array of JSON objects. -/
inductive Payload where
  | none
  | single (d : Doc)
  | list (l : List Doc)
deriving DecidableEq, Repr

/-- Python truthiness of the payload: `None`, `{}` and `[]` are falsy. -/
def payloadTruthy : Payload → Bool
  | .none => false
  | .single d => !d.isEmpty
  | .list l => !l.isEmpty

/-- The submitted documents as the handler's `tles` list
(`data` if it is a list, else `[data]`). -/
def payloadDocs : Payload → List Doc
  | .none => []
  | .single d => [d]
  | .list l => l

/-- One TLE document passes validation when it has all three of
`NORAD_CAT_ID`, `TLE_LINE1`, `TLE_LINE2`. -/
def tleValid (d : Doc) : Bool :=
  docContains d "NORAD_CAT_ID" && docContains d "TLE_LINE1"
    && docContains d "TLE_LINE2"

/-- The validation loop of `store_tle`: keep each valid document,
stamping it with the batch timestamp; drop the rest. -/
def validateTles (now : Nat) : List Doc → List Doc
  | [] => []
  | d :: rest =>
    if tleValid d then docSet d "stored_at" (.dt now) :: validateTles now rest
    else validateTles now rest

/-- POST /api/tle (`store_tle` in app.py).  `now` is the single
`datetime.now(timezone.utc)` taken for the batch. -/
def store_tle (data : Payload) (now : Nat) (st : DbState) :
    HttpResponse × DbState :=
  if !payloadTruthy data then
    (⟨400, .errObj "No data provided"⟩, st)
  else
    let valid_tles := validateTles now (payloadDocs data)
    if valid_tles.isEmpty then
      (⟨400, .errObj "No valid TLEs found"⟩, st)
    else
      -- insert_many appends and reports one inserted id per document
      (⟨201, .msgObj ("Stored " ++ toString valid_tles.length
          ++ " TLE records")⟩,
       { st with
          tle_data := st.tle_data ++ withIds st.nextId valid_tles,
          nextId := st.nextId + valid_tles.length })

/-- POST /api/login (`login` in app.py); the payload is `request.json`
(`none` when absent). -/
def login (data : Option Doc) (now : Nat) (st : DbState) :
    HttpResponse × DbState :=
  match data with
  | .none => (⟨400, .errObj "Missing username"⟩, st)
  | some d =>
    if d.isEmpty || !docContains d "username" then
      (⟨400, .errObj "Missing username"⟩, st)
    else
      let session : Doc :=
        [("username", docGetd d "username"),
         ("created_at", .dt now),
         ("active", .bool true)]
      let inserted := ensureId st.nextId session
      (⟨200, .loginObj "Login successful" (valueStr (docGetd inserted "_id"))⟩,
       { st with sessions := st.sessions ++ [inserted],
                 nextId := st.nextId + 1 })

/-- Conversion `str(doc[...])` of the `_id` field done by `get_tle`
(every stored document carries `_id`, so the lookup never fails). -/
def idToStr (d : Doc) : Doc :=
  docSet d "_id" (.str (valueStr (docGetd d "_id")))

/-- GET /api/tle (`get_tle` in app.py).  Arguments are the raw query
parameters; `Except.error` models an uncaught Python exception
(`int()` raising `ValueError`), which Flask surfaces as a 500. -/
def get_tle (noradArg : Option String) (limitArg : Option String)
    (st : DbState) : Except String (HttpResponse × DbState) :=
  -- limit = int(request.args.get('limit', 100)); the default is already int
  match (match limitArg with | .none => some (100 : Int) | some s => pyInt s) with
  | .none => .error "ValueError: invalid literal for int"
  | some limit =>
    -- if norad_id: query['NORAD_CAT_ID'] = int(norad_id)
    -- (None and the empty string are falsy, so no constraint is added)
    match (match noradArg with
           | .none => Except.ok ([] : List (String × Value))
           | some s =>
             if s = "" then Except.ok []
             else match pyInt s with
               | .none => Except.error "ValueError: invalid literal for int"
               | some n => Except.ok [("NORAD_CAT_ID", Value.int n)]) with
    | .error e => .error e
    | .ok query =>
      let docs := applyLimit limit
        (sortDescBy storedAtKey (st.tle_data.filter (matchesQuery query)))
      .ok (⟨200, .docs (docs.map idToStr)⟩, st)

/-- The log entry `log_request` assembles (before the conditional
`content_length` field). -/
def buildLogEntry (req : Request) (resp : HttpResponse) (now : Nat) : Doc :=
  let duration : Nat := match req.startTime with
    | some t => now - t
    | .none => 0
  [("timestamp", .dt now),
   ("method", .str req.method),
   ("path", .str req.path),
   ("status_code", .int resp.status),
   ("duration_seconds", .int duration),
   ("ip", .str req.remoteAddr),
   ("user_agent", .str (req.userAgent.getD "Unknown"))]

/-- Guard `if request.content_length:` — add the field only when the length is
present and nonzero (Python truthiness of `Optional[int]`). -/
def withContentLength (req : Request) (entry : Doc) : Doc :=
  match req.contentLength with
  | some n => if n ≠ 0 then docSet entry "content_length" (.int n) else entry
  | .none => entry

/-- The `after_request` audit hook (`log_request` in app.py).
`insertOk = false` models `db.api_logs.insert_one` raising: the
exception is caught and the state left unchanged. -/
def log_request (req : Request) (resp : HttpResponse) (now : Nat)
    (insertOk : Bool) (st : DbState) : HttpResponse × DbState :=
  if req.path = "/health" then (resp, st)
  else
    let entry := withContentLength req (buildLogEntry req resp now)
    let st' :=
      if insertOk then
        { st with api_logs := st.api_logs ++ [ensureId st.nextId entry],
                  nextId := st.nextId + 1 }
      else st
    (resp, st')

/-- Anvil uplink `get_recent_tles`: `_id` to string, `stored_at`
(datetime on every system-stored record) to its ISO string.  The
uplink's default limit is 50. -/
def convertTleDoc (d : Doc) : Doc :=
  let d' := idToStr d
  match docGet d' "stored_at" with
  | some (.dt t) => docSet d' "stored_at" (.str (isoDt t))
  | _ => d'

/-- Anvil uplink conversion for API-log documents: `_id` to string,
`timestamp` (datetime on every system-written log) to its ISO string. -/
def convertLogDoc (d : Doc) : Doc :=
  let d' := idToStr d
  match docGet d' "timestamp" with
  | some (.dt t) => docSet d' "timestamp" (.str (isoDt t))
  | _ => d'

/-- Uplink `get_recent_tles(limit=50)` of anvil_service.py. -/
def get_recent_tles (limit : Int) (st : DbState) : List Doc :=
  (applyLimit limit (sortDescBy storedAtKey st.tle_data)).map convertTleDoc

/-- Uplink `get_system_logs(limit=20)` of anvil_service.py. -/
def get_system_logs (limit : Int) (st : DbState) : List Doc :=
  (applyLimit limit (sortDescBy timestampKey st.api_logs)).map convertLogDoc

/-- Uplink `search_satellite(norad_id)` of anvil_service.py: all
matches, no limit, sorted by `stored_at` descending (`norad` is the
result of the `int(norad_id)` coercion). -/
def search_satellite (norad : Int) (st : DbState) : List Doc :=
  (sortDescBy storedAtKey
    (st.tle_data.filter (matchesQuery [("NORAD_CAT_ID", .int norad)]))).map
    convertTleDoc

/-- Default limits of the three uplink operations. -/
def RECENT_TLES_DEFAULT_LIMIT : Int := 50

def SYSTEM_LOGS_DEFAULT_LIMIT : Int := 20

/-! Helper lemmas about the document and collection operations. -/

theorem docGet_docSet_self (d : Doc) (k : String) (v : Value) :
    docGet (docSet d k v) k = some v := by
  induction d with
  | nil => simp [docSet, docGet]
  | cons p rest ih =>
    by_cases h : p.1 = k
    · simp [docSet, docGet, h]
    · simp [docSet, docGet, h, ih]

theorem docGet_docSet_ne (d : Doc) (k k' : String) (v : Value)
    (h : k' ≠ k) : docGet (docSet d k v) k' = docGet d k' := by
  induction d with
  | nil => simp [docSet, docGet, Ne.symm h]
  | cons p rest ih =>
    by_cases hp : p.1 = k
    · have h1 : docSet (p :: rest) k v = (k, v) :: rest := by
        simp [docSet, hp]
      have h2 : docGet ((k, v) :: rest) k' = docGet rest k' := by
        simp [docGet, Ne.symm h]
      have hpk' : ¬ p.1 = k' := by rw [hp]; exact Ne.symm h
      have h3 : docGet (p :: rest) k' = docGet rest k' := by
        simp [docGet, hpk']
      rw [h1, h2, h3]
    · have h1 : docSet (p :: rest) k v = p :: docSet rest k v := by
        simp [docSet, hp]
      rw [h1]
      simp [docGet, ih]

theorem docContains_eq_isSome (d : Doc) (k : String) :
    docContains d k = (docGet d k).isSome := by
  induction d with
  | nil => rfl
  | cons p rest ih =>
    unfold docContains at ih ⊢
    by_cases hp : p.1 = k
    · simp [docGet, hp]
    · simp [docGet, hp, ih]

theorem docContains_docSet_of (d : Doc) (k k' : String) (v : Value)
    (h : docContains d k' = true) :
    docContains (docSet d k v) k' = true := by
  rw [docContains_eq_isSome] at h ⊢
  by_cases hk : k' = k
  · subst hk
    rw [docGet_docSet_self]
    rfl
  · rw [docGet_docSet_ne d k k' v hk]
    exact h

theorem docGet_ensureId_ne (n : Nat) (d : Doc) (k : String)
    (h : k ≠ "_id") : docGet (ensureId n d) k = docGet d k := by
  unfold ensureId
  by_cases hc : docContains d "_id"
  · simp [hc]
  · simp [hc, docGet_docSet_ne d "_id" k _ h]

theorem docContains_ensureId_of (n : Nat) (d : Doc) (k : String)
    (h : docContains d k = true) :
    docContains (ensureId n d) k = true := by
  unfold ensureId
  by_cases hc : docContains d "_id"
  · simp [hc, h]
  · simp [hc, docContains_docSet_of d "_id" k _ h]

theorem tleValid_docSet (d : Doc) (k : String) (v : Value)
    (h : tleValid d = true) : tleValid (docSet d k v) = true := by
  unfold tleValid at h ⊢
  simp only [Bool.and_eq_true] at h ⊢
  exact ⟨⟨docContains_docSet_of _ _ _ _ h.1.1,
    docContains_docSet_of _ _ _ _ h.1.2⟩,
    docContains_docSet_of _ _ _ _ h.2⟩

theorem tleValid_ensureId (n : Nat) (d : Doc)
    (h : tleValid d = true) : tleValid (ensureId n d) = true := by
  unfold tleValid at h ⊢
  simp only [Bool.and_eq_true] at h ⊢
  exact ⟨⟨docContains_ensureId_of _ _ _ h.1.1,
    docContains_ensureId_of _ _ _ h.1.2⟩,
    docContains_ensureId_of _ _ _ h.2⟩

theorem validateTles_length (now : Nat) (l : List Doc) :
    (validateTles now l).length = (l.filter tleValid).length := by
  induction l with
  | nil => rfl
  | cons d rest ih =>
    by_cases h : tleValid d
    · simp [validateTles, List.filter_cons, h, ih]
    · simp [validateTles, List.filter_cons, h, ih]

theorem validateTles_eq_nil_iff (now : Nat) (l : List Doc) :
    validateTles now l = [] ↔ l.filter tleValid = [] := by
  constructor
  · intro h
    have := validateTles_length now l
    rw [h] at this
    exact List.length_eq_zero.mp this.symm
  · intro h
    have := validateTles_length now l
    rw [h] at this
    exact List.length_eq_zero.mp this

theorem mem_validateTles (now : Nat) (l : List Doc) (e : Doc)
    (he : e ∈ validateTles now l) :
    ∃ d, d ∈ l ∧ tleValid d = true ∧ e = docSet d "stored_at" (.dt now) := by
  induction l with
  | nil => simp [validateTles] at he
  | cons d rest ih =>
    by_cases h : tleValid d
    · simp only [validateTles, h, if_pos, List.mem_cons] at he
      rcases he with he | he
      · exact ⟨d, List.mem_cons_self _ _, h, he⟩
      · obtain ⟨d', hd', hv', he'⟩ := ih he
        exact ⟨d', List.mem_cons_of_mem _ hd', hv', he'⟩
    · simp only [validateTles, h] at he
      simp only [Bool.false_eq_true, if_false] at he
      obtain ⟨d', hd', hv', he'⟩ := ih he
      exact ⟨d', List.mem_cons_of_mem _ hd', hv', he'⟩

theorem withIds_length (n : Nat) (l : List Doc) :
    (withIds n l).length = l.length := by
  induction l generalizing n with
  | nil => rfl
  | cons d rest ih => simp [withIds, ih]

theorem mem_withIds (n : Nat) (l : List Doc) (e : Doc)
    (he : e ∈ withIds n l) : ∃ d m, d ∈ l ∧ e = ensureId m d := by
  induction l generalizing n with
  | nil => simp [withIds] at he
  | cons d rest ih =>
    simp only [withIds, List.mem_cons] at he
    rcases he with he | he
    · exact ⟨d, n, List.mem_cons_self _ _, he⟩
    · obtain ⟨d', m, hd', he'⟩ := ih (n + 1) he
      exact ⟨d', m, List.mem_cons_of_mem _ hd', he'⟩

/-! Claim theorems for the ingestion handler (`store_tle`). -/

/-- Claim C1: when `store_tle` succeeds (HTTP 201), the count in its
success message equals the number of submitted documents carrying all
three of `NORAD_CAT_ID`, `TLE_LINE1` and `TLE_LINE2`; the TLE
collection grows by exactly that many documents, and every newly
inserted document is one of the valid ones (invalid documents are
excluded from the insert). -/
theorem store_tle_success_count (p : Payload) (now : Nat) (st : DbState)
    (h : (store_tle p now st).1.status = 201) :
    (store_tle p now st).1.body
      = .msgObj ("Stored "
          ++ toString ((payloadDocs p).filter tleValid).length
          ++ " TLE records")
    ∧ (store_tle p now st).2.tle_data.length
        = st.tle_data.length + ((payloadDocs p).filter tleValid).length
    ∧ ∀ e ∈ (store_tle p now st).2.tle_data.drop st.tle_data.length,
        tleValid e = true := by
  unfold store_tle at h ⊢
  by_cases hp : payloadTruthy p = true
  · by_cases hv : (validateTles now (payloadDocs p)).isEmpty = true
    · simp [hp, hv] at h
    · simp only [hp, Bool.not_true, Bool.false_eq_true, if_false, hv] at h ⊢
      refine ⟨?_, ?_, ?_⟩
      · rw [validateTles_length]
      · simp [List.length_append, withIds_length, validateTles_length]
      · intro e he
        rw [List.drop_left] at he
        obtain ⟨d, m, hd, rfl⟩ := mem_withIds _ _ _ he
        obtain ⟨d0, _, hval, rfl⟩ := mem_validateTles _ _ _ hd
        exact tleValid_ensureId _ _ (tleValid_docSet _ _ _ hval)
  · simp [hp] at h

/-- Witness for C1 at a concrete valid single-document submission. -/
theorem store_tle_success_count_witness :
    (store_tle (.single [("NORAD_CAT_ID", .int 25544),
        ("TLE_LINE1", .str "l1"), ("TLE_LINE2", .str "l2")]) 5
        ⟨[], [], [], 0⟩).1.status = 201
    ∧ ((store_tle (.single [("NORAD_CAT_ID", .int 25544),
        ("TLE_LINE1", .str "l1"), ("TLE_LINE2", .str "l2")]) 5
        ⟨[], [], [], 0⟩).1.body
      = .msgObj ("Stored "
          ++ toString (((payloadDocs (.single [("NORAD_CAT_ID", .int 25544),
              ("TLE_LINE1", .str "l1"),
              ("TLE_LINE2", .str "l2")])).filter tleValid).length)
          ++ " TLE records")
    ∧ (store_tle (.single [("NORAD_CAT_ID", .int 25544),
        ("TLE_LINE1", .str "l1"), ("TLE_LINE2", .str "l2")]) 5
        ⟨[], [], [], 0⟩).2.tle_data.length
        = ([] : List Doc).length
          + ((payloadDocs (.single [("NORAD_CAT_ID", .int 25544),
              ("TLE_LINE1", .str "l1"),
              ("TLE_LINE2", .str "l2")])).filter tleValid).length
    ∧ ∀ e ∈ (store_tle (.single [("NORAD_CAT_ID", .int 25544),
        ("TLE_LINE1", .str "l1"), ("TLE_LINE2", .str "l2")]) 5
        ⟨[], [], [], 0⟩).2.tle_data.drop ([] : List Doc).length,
        tleValid e = true) :=
  ⟨by decide, store_tle_success_count _ 5 ⟨[], [], [], 0⟩ (by decide)⟩

/-- Claim C4: `store_tle` answers 400 "No data provided" on a falsy
(empty or missing) payload and 400 "No valid TLEs found" on a truthy
payload whose documents all fail validation, leaving the store unchanged
in both cases; otherwise it answers 201 and appends exactly the accepted
documents to the TLE collection. -/
theorem store_tle_error_handling (p : Payload) (now : Nat) (st : DbState) :
    (payloadTruthy p = false →
      store_tle p now st = (⟨400, .errObj "No data provided"⟩, st))
    ∧ (payloadTruthy p = true → (payloadDocs p).filter tleValid = [] →
      store_tle p now st = (⟨400, .errObj "No valid TLEs found"⟩, st))
    ∧ (payloadTruthy p = true → (payloadDocs p).filter tleValid ≠ [] →
      (store_tle p now st).1.status = 201
      ∧ (store_tle p now st).2.tle_data
          = st.tle_data ++ withIds st.nextId (validateTles now (payloadDocs p))) := by
  refine ⟨?_, ?_, ?_⟩
  · intro hp
    simp [store_tle, hp]
  · intro hp hf
    have hv : validateTles now (payloadDocs p) = [] :=
      (validateTles_eq_nil_iff now _).mpr hf
    simp [store_tle, hp, hv]
  · intro hp hf
    have hv : ¬ validateTles now (payloadDocs p) = [] := fun h =>
      hf ((validateTles_eq_nil_iff now _).mp h)
    simp [store_tle, hp, hv]

/-- Witness for C4: the empty array and an all-invalid single document. -/
theorem store_tle_error_handling_witness :
    store_tle (.list []) 3 ⟨[], [], [], 0⟩
      = (⟨400, .errObj "No data provided"⟩, ⟨[], [], [], 0⟩)
    ∧ store_tle (.single [("x", .int 1)]) 3 ⟨[], [], [], 0⟩
      = (⟨400, .errObj "No valid TLEs found"⟩, ⟨[], [], [], 0⟩) :=
  ⟨(store_tle_error_handling (.list []) 3 ⟨[], [], [], 0⟩).1 (by decide),
   (store_tle_error_handling (.single [("x", .int 1)]) 3
      ⟨[], [], [], 0⟩).2.1 (by decide) (by decide)⟩

/-- Claim C5: every document inserted by a `store_tle` call carries
`stored_at` equal to the single timestamp computed for that batch — so a
multi-record submission shares one `stored_at`, a caller-supplied
`stored_at` is overwritten, and every inserted record has the field. -/
theorem store_tle_single_batch_timestamp (p : Payload) (now : Nat)
    (st : DbState) :
    ∀ e ∈ (store_tle p now st).2.tle_data.drop st.tle_data.length,
      docGet e "stored_at" = some (.dt now) := by
  intro e he
  unfold store_tle at he
  by_cases hp : payloadTruthy p = true
  · by_cases hv : (validateTles now (payloadDocs p)).isEmpty = true
    · simp [hp, hv, List.drop_length] at he
    · simp only [hp, Bool.not_true, Bool.false_eq_true, if_false, hv] at he
      rw [List.drop_left] at he
      obtain ⟨d, m, hd, rfl⟩ := mem_withIds _ _ _ he
      obtain ⟨d0, _, hval, rfl⟩ := mem_validateTles _ _ _ hd
      rw [docGet_ensureId_ne _ _ _ (by decide)]
      exact docGet_docSet_self _ _ _
  · simp [hp, List.drop_length] at he

/-- Witness for C5: a two-record batch; both inserted documents carry
the shared batch timestamp, including one whose caller-supplied
`stored_at` was overwritten. -/
theorem store_tle_single_batch_timestamp_witness :
    docGet [("NORAD_CAT_ID", Value.int 1), ("TLE_LINE1", Value.str "a"),
      ("TLE_LINE2", Value.str "b"), ("stored_at", Value.dt 5),
      ("_id", Value.oid 0)] "stored_at" = some (.dt 5)
    ∧ docGet [("NORAD_CAT_ID", Value.int 2), ("TLE_LINE1", Value.str "c"),
      ("TLE_LINE2", Value.str "d"), ("stored_at", Value.dt 5),
      ("_id", Value.oid 1)] "stored_at" = some (.dt 5) :=
  ⟨store_tle_single_batch_timestamp
    (.list [[("NORAD_CAT_ID", Value.int 1), ("TLE_LINE1", Value.str "a"),
      ("TLE_LINE2", Value.str "b")],
      [("NORAD_CAT_ID", Value.int 2), ("TLE_LINE1", Value.str "c"),
       ("TLE_LINE2", Value.str "d"), ("stored_at", Value.dt 999)]]) 5
    ⟨[], [], [], 0⟩ _ (by decide),
   store_tle_single_batch_timestamp
    (.list [[("NORAD_CAT_ID", Value.int 1), ("TLE_LINE1", Value.str "a"),
      ("TLE_LINE2", Value.str "b")],
      [("NORAD_CAT_ID", Value.int 2), ("TLE_LINE1", Value.str "c"),
       ("TLE_LINE2", Value.str "d"), ("stored_at", Value.dt 999)]]) 5
    ⟨[], [], [], 0⟩ _ (by decide)⟩

/-! Claim theorems for the request audit logger (`log_request`). -/

theorem docGet_withContentLength_ne (req : Request) (e : Doc) (k : String)
    (h : k ≠ "content_length") :
    docGet (withContentLength req e) k = docGet e k := by
  unfold withContentLength
  rcases hc : req.contentLength with _ | n
  · rfl
  · by_cases hn : n ≠ 0
    · simp [hn, docGet_docSet_ne _ _ _ _ h]
    · simp [hn]

theorem buildLogEntry_path (req : Request) (resp : HttpResponse)
    (now : Nat) :
    docGet (buildLogEntry req resp now) "path" = some (.str req.path) := by
  simp [buildLogEntry, docGet]

theorem buildLogEntry_method (req : Request) (resp : HttpResponse)
    (now : Nat) :
    docGet (buildLogEntry req resp now) "method" = some (.str req.method) := by
  simp [buildLogEntry, docGet]

/-- Claim C2: the audit post-hook returns the handler's response with
status and body unchanged, for every request and whether or not the
api_logs insert raises (`insertOk` false models the caught exception). -/
theorem log_request_preserves_response (req : Request)
    (resp : HttpResponse) (now : Nat) (insertOk : Bool) (st : DbState) :
    (log_request req resp now insertOk st).1 = resp := by
  unfold log_request
  by_cases h : req.path = "/health" <;> simp [h]

/-- Claim C3: a completed non-health request with a successful insert
adds exactly one api_logs entry, whose `path` and `method` fields match
the request; a health-check request leaves the store untouched
(no log entry), insert succeeding or not. -/
theorem log_request_audit_entry (req : Request) (resp : HttpResponse)
    (now : Nat) (st : DbState) :
    (req.path ≠ "/health" →
      (log_request req resp now true st).2.api_logs
        = st.api_logs ++ [ensureId st.nextId
            (withContentLength req (buildLogEntry req resp now))]
      ∧ docGet (ensureId st.nextId
            (withContentLength req (buildLogEntry req resp now))) "path"
          = some (.str req.path)
      ∧ docGet (ensureId st.nextId
            (withContentLength req (buildLogEntry req resp now))) "method"
          = some (.str req.method))
    ∧ (req.path = "/health" →
      ∀ insertOk, (log_request req resp now insertOk st).2 = st) := by
  constructor
  · intro h
    refine ⟨by simp [log_request, h], ?_, ?_⟩
    · rw [docGet_ensureId_ne _ _ _ (by decide),
        docGet_withContentLength_ne _ _ _ (by decide)]
      exact buildLogEntry_path req resp now
    · rw [docGet_ensureId_ne _ _ _ (by decide),
        docGet_withContentLength_ne _ _ _ (by decide)]
      exact buildLogEntry_method req resp now
  · intro h insertOk
    simp [log_request, h]

/-- Example request/response/state used by the logger witnesses. -/
def exReq : Request := ⟨"/api/tle", "POST", "1.2.3.4", some "UA", some 12, some 3⟩

def exHealthReq : Request := ⟨"/health", "GET", "1.2.3.4", some "UA", .none, some 3⟩

def exResp : HttpResponse := ⟨201, .msgObj "m"⟩

def emptyDb : DbState := ⟨[], [], [], 0⟩

/-- Witness for C3 at a concrete non-health request and a concrete
health-check request. -/
theorem log_request_audit_entry_witness :
    ((log_request exReq exResp 7 true emptyDb).2.api_logs
        = emptyDb.api_logs ++ [ensureId emptyDb.nextId
            (withContentLength exReq (buildLogEntry exReq exResp 7))]
      ∧ docGet (ensureId emptyDb.nextId
            (withContentLength exReq (buildLogEntry exReq exResp 7))) "path"
          = some (.str exReq.path)
      ∧ docGet (ensureId emptyDb.nextId
            (withContentLength exReq (buildLogEntry exReq exResp 7))) "method"
          = some (.str exReq.method))
    ∧ (log_request exHealthReq exResp 7 false emptyDb).2 = emptyDb :=
  ⟨(log_request_audit_entry exReq exResp 7 emptyDb).1 (by decide),
   (log_request_audit_entry exHealthReq exResp 7 emptyDb).2 (by decide) false⟩

/-! Claim theorem for the session handler (`login`). -/

/-- Claim C8: `login` answers 400 "Missing username" when the payload is
missing, empty, or lacks a `username` key, creating no session; with a
username present (no credential check) it persists a session record with
that username, a creation timestamp and an active flag, answering 200
with the store-assigned id rendered as a string. -/
theorem login_behavior (data : Option Doc) (now : Nat) (st : DbState) :
    (data = .none →
      login data now st = (⟨400, .errObj "Missing username"⟩, st))
    ∧ (∀ d, data = some d →
      (d.isEmpty = true ∨ docContains d "username" = false) →
      login data now st = (⟨400, .errObj "Missing username"⟩, st))
    ∧ (∀ d, data = some d → d.isEmpty = false →
      docContains d "username" = true →
      (login data now st).1
        = ⟨200, .loginObj "Login successful" (valueStr (.oid st.nextId))⟩
      ∧ (login data now st).2.sessions
          = st.sessions ++ [ensureId st.nextId
              [("username", docGetd d "username"),
               ("created_at", .dt now), ("active", .bool true)]]
      ∧ (login data now st).2.tle_data = st.tle_data
      ∧ (login data now st).2.api_logs = st.api_logs) := by
  refine ⟨?_, ?_, ?_⟩
  · intro h
    subst h
    rfl
  · intro d hd hbad
    subst hd
    rcases hbad with hbad | hbad <;> simp [login, hbad]
  · intro d hd hne hu
    subst hd
    have hnc : docContains [("username", docGetd d "username"),
        ("created_at", Value.dt now), ("active", Value.bool true)]
        "_id" = false := by simp [docContains]
    have hid : docGetd (ensureId st.nextId
        [("username", docGetd d "username"),
         ("created_at", Value.dt now), ("active", Value.bool true)])
        "_id" = .oid st.nextId := by
      unfold ensureId
      rw [hnc]
      simp only [Bool.false_eq_true, if_false]
      unfold docGetd
      rw [docGet_docSet_self]
      rfl
    simp [login, hne, hu, hid]

/-- Witness for C8: missing payload, empty object, and a successful
login with username "bob" against the empty store. -/
theorem login_behavior_witness :
    login .none 9 emptyDb = (⟨400, .errObj "Missing username"⟩, emptyDb)
    ∧ login (some []) 9 emptyDb
        = (⟨400, .errObj "Missing username"⟩, emptyDb)
    ∧ (login (some [("username", .str "bob")]) 9 emptyDb).1
        = ⟨200, .loginObj "Login successful" (valueStr (.oid emptyDb.nextId))⟩ :=
  ⟨(login_behavior .none 9 emptyDb).1 rfl,
   (login_behavior (some []) 9 emptyDb).2.1 [] rfl (Or.inl (by decide)),
   ((login_behavior (some [("username", .str "bob")]) 9 emptyDb).2.2
      [("username", .str "bob")] rfl (by decide) (by decide)).1⟩

/-! Lemmas about the modelled cursor operations (sort and limit). -/

theorem insertDescBy_perm (key : Doc → Nat) (d : Doc) (l : List Doc) :
    (insertDescBy key d l).Perm (d :: l) := by
  induction l with
  | nil => exact List.Perm.refl _
  | cons e rest ih =>
    unfold insertDescBy
    by_cases h : key e ≤ key d
    · rw [if_pos h]
    · rw [if_neg h]
      exact (ih.cons e).trans (List.Perm.swap d e rest)

theorem sortDescBy_perm (key : Doc → Nat) (l : List Doc) :
    (sortDescBy key l).Perm l := by
  induction l with
  | nil => exact List.Perm.refl _
  | cons d rest ih =>
    exact (insertDescBy_perm key d _).trans (ih.cons d)

theorem mem_sortDescBy (key : Doc → Nat) (l : List Doc) (e : Doc) :
    e ∈ sortDescBy key l ↔ e ∈ l :=
  (sortDescBy_perm key l).mem_iff

theorem mem_insertDescBy (key : Doc → Nat) (d e : Doc) (l : List Doc)
    (h : e ∈ insertDescBy key d l) : e = d ∨ e ∈ l := by
  have := (insertDescBy_perm key d l).mem_iff.mp h
  simpa using this

theorem pairwise_insertDescBy (key : Doc → Nat) (d : Doc) (l : List Doc)
    (h : l.Pairwise (fun a b => key b ≤ key a)) :
    (insertDescBy key d l).Pairwise (fun a b => key b ≤ key a) := by
  induction l with
  | nil => simp [insertDescBy]
  | cons e rest ih =>
    rw [List.pairwise_cons] at h
    unfold insertDescBy
    by_cases hle : key e ≤ key d
    · rw [if_pos hle, List.pairwise_cons]
      refine ⟨?_, List.pairwise_cons.mpr h⟩
      intro x hx
      rcases List.mem_cons.mp hx with rfl | hx
      · exact hle
      · exact le_trans (h.1 x hx) hle
    · rw [if_neg hle, List.pairwise_cons]
      refine ⟨?_, ih h.2⟩
      intro x hx
      rcases mem_insertDescBy key d x _ hx with rfl | hx
      · exact le_of_not_le hle
      · exact h.1 x hx

theorem sortDescBy_pairwise (key : Doc → Nat) (l : List Doc) :
    (sortDescBy key l).Pairwise (fun a b => key b ≤ key a) := by
  induction l with
  | nil => simp [sortDescBy]
  | cons d rest ih => exact pairwise_insertDescBy key d _ ih

theorem applyLimit_zero (l : List Doc) : applyLimit 0 l = l := rfl

theorem applyLimit_length_le (n : Int) (l : List Doc) (hn : n ≠ 0) :
    (applyLimit n l).length ≤ n.natAbs := by
  unfold applyLimit
  rw [if_neg hn]
  exact List.length_take_le _ _

theorem mem_applyLimit (n : Int) (l : List Doc) (e : Doc)
    (h : e ∈ applyLimit n l) : e ∈ l := by
  unfold applyLimit at h
  by_cases hn : n = 0
  · rw [if_pos hn] at h
    exact h
  · rw [if_neg hn] at h
    exact List.mem_of_mem_take h

theorem applyLimit_pairwise {R : Doc → Doc → Prop} (n : Int) (l : List Doc)
    (h : l.Pairwise R) : (applyLimit n l).Pairwise R := by
  unfold applyLimit
  by_cases hn : n = 0
  · rw [if_pos hn]
    exact h
  · rw [if_neg hn]
    exact h.sublist (List.take_sublist _ _)

theorem storedAtKey_idToStr (d : Doc) :
    storedAtKey (idToStr d) = storedAtKey d := by
  unfold storedAtKey idToStr
  rw [docGet_docSet_ne _ _ _ _ (by decide)]

/-- The document list GET /api/tle replies with (the filtered, sorted,
limited cursor, each document's `_id` stringified). -/
def tleQueryResult (q : List (String × Value)) (limit : Int)
    (st : DbState) : List Doc :=
  (applyLimit limit
    (sortDescBy storedAtKey (st.tle_data.filter (matchesQuery q)))).map idToStr

/-- The document array of a query response (empty for error or
non-array responses). -/
def respDocs : Except String (HttpResponse × DbState) → List Doc
  | .ok (r, _) => match r.body with | .docs l => l | _ => []
  | .error _ => []

/-! Claim theorems for the HTTP query handler (`get_tle`). -/

/-- A store holding one TLE record, used by the query counterexamples
and witnesses. -/
def oneDocDb : DbState :=
  ⟨[[("NORAD_CAT_ID", .int 1), ("TLE_LINE1", .str "a"),
     ("TLE_LINE2", .str "b"), ("stored_at", .dt 5), ("_id", .oid 0)]],
   [], [], 1⟩

/-- Counterexample to C6 as stated: with one stored record and a
caller-supplied limit of 0, the result contains one document, not at
most zero — `limit(0)` disables the cap instead of returning nothing. -/
theorem get_tle_limit_zero_cex :
    ¬ ((respDocs (get_tle .none (some "0") oneDocDb)).length ≤ 0) := by
  decide

/-- Claim C6 (amended): for every stored state, `get_tle` with a
supplied (integer-parsing, nonempty) catalog identifier returns only
documents whose `NORAD_CAT_ID` matches it, and without one returns
documents across all identifiers; the result is sorted by `stored_at`
descending, contains at most `|limit|` documents whenever the
caller-supplied or default limit is nonzero (a limit of 0 disables the
cap), has each store-assigned `_id` converted to a string, leaves all
other stored fields unmodified, and the operation leaves the store
unchanged. -/
theorem get_tle_query_correct (sid lim : String) (n L : Int)
    (st : DbState) (hsid : pyInt sid = some n) (hne : sid ≠ "")
    (hlim : pyInt lim = some L) :
    get_tle (some sid) (some lim) st
      = .ok (⟨200, .docs (tleQueryResult [("NORAD_CAT_ID", .int n)] L st)⟩, st)
    ∧ get_tle .none (some lim) st
      = .ok (⟨200, .docs (tleQueryResult [] L st)⟩, st)
    ∧ get_tle .none .none st
      = .ok (⟨200, .docs (tleQueryResult [] 100 st)⟩, st)
    ∧ (∀ e ∈ tleQueryResult [("NORAD_CAT_ID", .int n)] L st,
        docGet e "NORAD_CAT_ID" = some (.int n))
    ∧ (∀ q lm, ∀ e ∈ tleQueryResult q lm st,
        ∃ d, d ∈ st.tle_data ∧ matchesQuery q d = true ∧ e = idToStr d
          ∧ docGet e "_id" = some (.str (valueStr (docGetd d "_id")))
          ∧ ∀ k, k ≠ "_id" → docGet e k = docGet d k)
    ∧ (∀ q lm, (tleQueryResult q lm st).Pairwise
        (fun a b => storedAtKey b ≤ storedAtKey a))
    ∧ (∀ q lm, lm ≠ 0 → (tleQueryResult q lm st).length ≤ lm.natAbs) := by
  have hmem : ∀ q lm, ∀ e ∈ tleQueryResult q lm st,
      ∃ d, d ∈ st.tle_data ∧ matchesQuery q d = true ∧ e = idToStr d
        ∧ docGet e "_id" = some (.str (valueStr (docGetd d "_id")))
        ∧ ∀ k, k ≠ "_id" → docGet e k = docGet d k := by
    intro q lm e he
    unfold tleQueryResult at he
    obtain ⟨d, hd, rfl⟩ := List.mem_map.mp he
    have hd' := mem_applyLimit _ _ _ hd
    rw [mem_sortDescBy] at hd'
    rw [List.mem_filter] at hd'
    refine ⟨d, hd'.1, hd'.2, rfl, ?_, ?_⟩
    · unfold idToStr
      exact docGet_docSet_self _ _ _
    · intro k hk
      unfold idToStr
      exact docGet_docSet_ne _ _ _ _ hk
  refine ⟨?_, ?_, ?_, ?_, hmem, ?_, ?_⟩
  · simp [get_tle, hlim, hne, hsid, tleQueryResult]
  · simp [get_tle, hlim, tleQueryResult]
  · simp [get_tle, tleQueryResult]
  · intro e he
    obtain ⟨d, _, hq, rfl, _, hrest⟩ :=
      hmem [("NORAD_CAT_ID", .int n)] L e he
    rw [hrest "NORAD_CAT_ID" (by decide)]
    simpa [matchesQuery] using hq
  · intro q lm
    unfold tleQueryResult
    rw [List.pairwise_map]
    exact ((applyLimit_pairwise lm _ (sortDescBy_pairwise storedAtKey _)).imp
      (fun h => by rw [storedAtKey_idToStr, storedAtKey_idToStr]; exact h))
  · intro q lm hlm
    unfold tleQueryResult
    rw [List.length_map]
    exact applyLimit_length_le lm _ hlm

/-- Witness for the amended C6 at a concrete store, identifier and
limit, with the query result evaluated. -/
theorem get_tle_query_correct_witness :
    get_tle (some "1") (some "2") oneDocDb
      = .ok (⟨200, .docs (tleQueryResult [("NORAD_CAT_ID", .int 1)] 2
          oneDocDb)⟩, oneDocDb)
    ∧ tleQueryResult [("NORAD_CAT_ID", .int 1)] 2 oneDocDb
      = [[("NORAD_CAT_ID", .int 1), ("TLE_LINE1", .str "a"),
          ("TLE_LINE2", .str "b"), ("stored_at", .dt 5),
          ("_id", .str "oid-0")]] :=
  ⟨(get_tle_query_correct "1" "2" 1 2 oneDocDb (by decide) (by decide)
      (by decide)).1,
   by decide⟩

/-- Counterexample to C7 as stated: a non-integer `limit` query
parameter makes `int()` raise an uncaught ValueError, so GET /api/tle
does have a failure outcome — the error branch is reachable. -/
theorem get_tle_error_reachable_cex :
    get_tle .none (some "x") emptyDb
      = .error "ValueError: invalid literal for int" := rfl

/-- Claim C7 (amended): GET /api/tle succeeds with HTTP 200 and an
array body, leaving the store unchanged, for every combination of
parameters in which the supplied `limit` parses as an integer and the
supplied `norad_id` is empty or parses as an integer; a non-integer
parameter raises an uncaught error instead. -/
theorem get_tle_success_on_wellformed (noradArg limitArg : Option String)
    (st : DbState)
    (hl : limitArg = .none ∨ ∃ s n, limitArg = some s ∧ pyInt s = some n)
    (hn : noradArg = .none ∨ noradArg = some ""
      ∨ ∃ s n, noradArg = some s ∧ pyInt s = some n) :
    ∃ docs, get_tle noradArg limitArg st = .ok (⟨200, .docs docs⟩, st) := by
  have hL : ∃ L, (match limitArg with
      | Option.none => some (100 : Int)
      | some s => pyInt s) = some L := by
    rcases hl with rfl | ⟨s, nn, rfl, hs⟩
    · exact ⟨100, rfl⟩
    · exact ⟨nn, hs⟩
  obtain ⟨L, hL⟩ := hL
  rcases hn with rfl | rfl | ⟨s, nn, rfl, hs⟩
  · exact ⟨tleQueryResult [] L st, by simp [get_tle, hL, tleQueryResult]⟩
  · exact ⟨tleQueryResult [] L st, by simp [get_tle, hL, tleQueryResult]⟩
  · by_cases hse : s = ""
    · exact ⟨tleQueryResult [] L st,
        by simp [get_tle, hL, hse, tleQueryResult]⟩
    · exact ⟨tleQueryResult [("NORAD_CAT_ID", .int nn)] L st,
        by simp [get_tle, hL, hse, hs, tleQueryResult]⟩

/-- Witness for the amended C7: both parameters supplied and
well-formed against the one-record store. -/
theorem get_tle_success_on_wellformed_witness :
    ∃ docs, get_tle (some "1") (some "7") oneDocDb
      = .ok (⟨200, .docs docs⟩, oneDocDb) :=
  get_tle_success_on_wellformed (some "1") (some "7") oneDocDb
    (Or.inr ⟨"7", 7, rfl, by decide⟩)
    (Or.inr (Or.inr ⟨"1", 1, rfl, by decide⟩))

/-- Claim C10: a caller-supplied limit of 0 does not cap the query —
`limit(0)` means no limit under the store's cursor semantics, so
GET /api/tle returns all matching documents (all stored documents
without an identifier; all documents with the matching identifier
otherwise). -/
theorem get_tle_limit_zero_no_cap (st : DbState) (sid : String) (n : Int)
    (hsid : pyInt sid = some n) (hne : sid ≠ "") :
    (respDocs (get_tle .none (some "0") st)).Perm
      (st.tle_data.map idToStr)
    ∧ (respDocs (get_tle (some sid) (some "0") st)).Perm
      ((st.tle_data.filter
        (matchesQuery [("NORAD_CAT_ID", .int n)])).map idToStr) := by
  have hall : st.tle_data.filter (matchesQuery []) = st.tle_data :=
    List.filter_eq_self.mpr (fun a _ => rfl)
  have h0 : pyInt "0" = some (0 : Int) := by decide
  constructor
  · have hre : respDocs (get_tle .none (some "0") st)
        = (sortDescBy storedAtKey st.tle_data).map idToStr := by
      simp [get_tle, respDocs, h0, applyLimit_zero, hall]
    rw [hre]
    exact (sortDescBy_perm storedAtKey st.tle_data).map idToStr
  · have hre : respDocs (get_tle (some sid) (some "0") st)
        = (sortDescBy storedAtKey (st.tle_data.filter
            (matchesQuery [("NORAD_CAT_ID", .int n)]))).map idToStr := by
      simp [get_tle, respDocs, h0, hne, hsid, applyLimit_zero]
    rw [hre]
    exact (sortDescBy_perm storedAtKey _).map idToStr

/-- Witness for C10: limit "0" over the one-record store returns the
whole collection, with and without the identifier filter. -/
theorem get_tle_limit_zero_no_cap_witness :
    (respDocs (get_tle .none (some "0") oneDocDb)).Perm
      (oneDocDb.tle_data.map idToStr)
    ∧ (respDocs (get_tle (some "1") (some "0") oneDocDb)).Perm
      ((oneDocDb.tle_data.filter
        (matchesQuery [("NORAD_CAT_ID", .int 1)])).map idToStr) :=
  get_tle_limit_zero_no_cap oneDocDb "1" 1 (by decide) (by decide)

/-! Claim C9: the uplink operations' id/datetime conversion.
A Python dict has no duplicate keys, so the collection documents are
assumed key-nodup; the datetime-typed fields of system-stored documents
are exactly `stored_at` (TLE records) resp. `timestamp` (API logs). -/

/-- No value of the document is datetime-typed. -/
def noDtValues (d : Doc) : Bool := d.all (fun p => !p.2.isDt)

/-- Every datetime-typed value of the document sits at key `k`. -/
def dtOnlyAt (k : String) (d : Doc) : Bool :=
  d.all (fun p => !p.2.isDt || p.1 = k)

theorem mem_docSet_nodup (d : Doc) (k : String) (v : Value)
    (p : String × Value) (hn : (d.map Prod.fst).Nodup)
    (hp : p ∈ docSet d k v) : p = (k, v) ∨ (p ∈ d ∧ p.1 ≠ k) := by
  induction d with
  | nil =>
    simp [docSet] at hp
    exact Or.inl hp
  | cons q rest ih =>
    rw [List.map_cons, List.nodup_cons] at hn
    by_cases hq : q.1 = k
    · rw [docSet, if_pos hq] at hp
      rcases List.mem_cons.mp hp with rfl | hp
      · exact Or.inl rfl
      · refine Or.inr ⟨List.mem_cons_of_mem _ hp, fun hpk => ?_⟩
        apply hn.1
        rw [hq, ← hpk]
        exact List.mem_map_of_mem Prod.fst hp
    · rw [docSet, if_neg hq] at hp
      rcases List.mem_cons.mp hp with rfl | hp
      · exact Or.inr ⟨List.mem_cons_self _ _, hq⟩
      · rcases ih hn.2 hp with h | ⟨h1, h2⟩
        · exact Or.inl h
        · exact Or.inr ⟨List.mem_cons_of_mem _ h1, h2⟩

theorem mem_docSet_of_mem_ne (d : Doc) (k : String) (v : Value)
    (p : String × Value) (hp : p ∈ d) (hpk : p.1 ≠ k) :
    p ∈ docSet d k v := by
  induction d with
  | nil => cases hp
  | cons q rest ih =>
    by_cases hq : q.1 = k
    · rw [docSet, if_pos hq]
      rcases List.mem_cons.mp hp with rfl | hp
      · exact absurd hq hpk
      · exact List.mem_cons_of_mem _ hp
    · rw [docSet, if_neg hq]
      rcases List.mem_cons.mp hp with rfl | hp
      · exact List.mem_cons_self _ _
      · exact List.mem_cons_of_mem _ (ih hp)

theorem docContains_iff_mem_fst (d : Doc) (k : String) :
    docContains d k = true ↔ k ∈ d.map Prod.fst := by
  constructor
  · intro h
    obtain ⟨p, hp, he⟩ := List.any_eq_true.mp h
    exact List.mem_map.mpr ⟨p, hp, by simpa using he⟩
  · intro h
    obtain ⟨p, hp, he⟩ := List.mem_map.mp h
    exact List.any_eq_true.mpr ⟨p, hp, by simpa using he⟩

theorem map_fst_docSet (d : Doc) (k : String) (v : Value) :
    (docSet d k v).map Prod.fst
      = if docContains d k then d.map Prod.fst
        else d.map Prod.fst ++ [k] := by
  induction d with
  | nil => simp [docSet, docContains]
  | cons q rest ih =>
    by_cases hq : q.1 = k
    · simp [docSet, docContains, hq]
    · rw [docSet, if_neg hq, List.map_cons, ih]
      have hcc : docContains (q :: rest) k = docContains rest k := by
        simp [docContains, hq]
      rw [hcc]
      by_cases hc : docContains rest k <;> simp [hc]

theorem nodup_fst_docSet (d : Doc) (k : String) (v : Value)
    (hn : (d.map Prod.fst).Nodup) :
    ((docSet d k v).map Prod.fst).Nodup := by
  rw [map_fst_docSet]
  by_cases hc : docContains d k
  · rw [if_pos hc]
    exact hn
  · rw [if_neg hc]
    refine List.Nodup.append hn (List.nodup_singleton k) ?_
    intro a ha hak
    rw [List.mem_singleton] at hak
    subst hak
    exact hc ((docContains_iff_mem_fst d a).mpr ha)

theorem docGet_of_mem_nodup (d : Doc) (p : String × Value)
    (hn : (d.map Prod.fst).Nodup) (hp : p ∈ d) :
    docGet d p.1 = some p.2 := by
  induction d with
  | nil => cases hp
  | cons q rest ih =>
    rw [List.map_cons, List.nodup_cons] at hn
    rcases List.mem_cons.mp hp with rfl | hp
    · simp [docGet]
    · have hq : ¬ q.1 = p.1 := fun he =>
        hn.1 (he ▸ List.mem_map_of_mem Prod.fst hp)
      simp [docGet, hq, ih hn.2 hp]

theorem convertTleDoc_id_str (d : Doc) :
    docGet (convertTleDoc d) "_id"
      = some (.str (valueStr (docGetd d "_id"))) := by
  simp only [convertTleDoc]
  split
  · rw [docGet_docSet_ne _ _ _ _ (by decide)]
    unfold idToStr
    exact docGet_docSet_self _ _ _
  · unfold idToStr
    exact docGet_docSet_self _ _ _

theorem convertTleDoc_no_dt (d : Doc) (hn : (d.map Prod.fst).Nodup)
    (hdt : dtOnlyAt "stored_at" d = true) :
    noDtValues (convertTleDoc d) = true := by
  have hn' : ((idToStr d).map Prod.fst).Nodup := nodup_fst_docSet _ _ _ hn
  simp only [convertTleDoc]
  split
  · next t heq =>
    unfold noDtValues
    rw [List.all_eq_true]
    intro p hp
    rcases mem_docSet_nodup _ _ _ p hn' hp with rfl | ⟨hp1, hp2⟩
    · simp [Value.isDt]
    · rcases mem_docSet_nodup _ _ _ p hn hp1 with rfl | ⟨hq1, hq2⟩
      · simp [Value.isDt]
      · have hall := List.all_eq_true.mp hdt p hq1
        by_cases hb : p.2.isDt = true
        · exact absurd (by simpa [hb] using hall) hp2
        · simpa using hb
  · next hne =>
    unfold noDtValues
    rw [List.all_eq_true]
    intro p hp
    rcases mem_docSet_nodup _ _ _ p hn hp with rfl | ⟨hq1, hq2⟩
    · simp [Value.isDt]
    · have hall := List.all_eq_true.mp hdt p hq1
      by_cases hb : p.2.isDt = true
      · have hk : p.1 = "stored_at" := by simpa [hb] using hall
        have hmem : p ∈ idToStr d := mem_docSet_of_mem_ne d "_id" _ p hq1 hq2
        have hget : docGet (idToStr d) p.1 = some p.2 :=
          docGet_of_mem_nodup _ p hn' hmem
        rw [hk] at hget
        cases hv : p.2 with
        | dt t =>
          rw [hv] at hget
          exact absurd hget (hne t)
        | null => simp [hv, Value.isDt] at hb
        | str s => simp [hv, Value.isDt] at hb
        | int n => simp [hv, Value.isDt] at hb
        | bool b => simp [hv, Value.isDt] at hb
        | oid n => simp [hv, Value.isDt] at hb
      · simpa using hb

theorem convertLogDoc_id_str (d : Doc) :
    docGet (convertLogDoc d) "_id"
      = some (.str (valueStr (docGetd d "_id"))) := by
  simp only [convertLogDoc]
  split
  · rw [docGet_docSet_ne _ _ _ _ (by decide)]
    unfold idToStr
    exact docGet_docSet_self _ _ _
  · unfold idToStr
    exact docGet_docSet_self _ _ _

theorem convertLogDoc_no_dt (d : Doc) (hn : (d.map Prod.fst).Nodup)
    (hdt : dtOnlyAt "timestamp" d = true) :
    noDtValues (convertLogDoc d) = true := by
  have hn' : ((idToStr d).map Prod.fst).Nodup := nodup_fst_docSet _ _ _ hn
  simp only [convertLogDoc]
  split
  · next t heq =>
    unfold noDtValues
    rw [List.all_eq_true]
    intro p hp
    rcases mem_docSet_nodup _ _ _ p hn' hp with rfl | ⟨hp1, hp2⟩
    · simp [Value.isDt]
    · rcases mem_docSet_nodup _ _ _ p hn hp1 with rfl | ⟨hq1, hq2⟩
      · simp [Value.isDt]
      · have hall := List.all_eq_true.mp hdt p hq1
        by_cases hb : p.2.isDt = true
        · exact absurd (by simpa [hb] using hall) hp2
        · simpa using hb
  · next hne =>
    unfold noDtValues
    rw [List.all_eq_true]
    intro p hp
    rcases mem_docSet_nodup _ _ _ p hn hp with rfl | ⟨hq1, hq2⟩
    · simp [Value.isDt]
    · have hall := List.all_eq_true.mp hdt p hq1
      by_cases hb : p.2.isDt = true
      · have hk : p.1 = "timestamp" := by simpa [hb] using hall
        have hmem : p ∈ idToStr d := mem_docSet_of_mem_ne d "_id" _ p hq1 hq2
        have hget : docGet (idToStr d) p.1 = some p.2 :=
          docGet_of_mem_nodup _ p hn' hmem
        rw [hk] at hget
        cases hv : p.2 with
        | dt t =>
          rw [hv] at hget
          exact absurd hget (hne t)
        | null => simp [hv, Value.isDt] at hb
        | str s => simp [hv, Value.isDt] at hb
        | int n => simp [hv, Value.isDt] at hb
        | bool b => simp [hv, Value.isDt] at hb
        | oid n => simp [hv, Value.isDt] at hb
      · simpa using hb

/-- Claim C9: each of the three uplink operations (recent TLEs, recent
API logs, search-by-identifier) returns documents whose store-assigned
`_id` is converted to a string and whose datetime-typed fields are all
converted to string form — given that the stored documents, as every
document this system writes, have unique keys and carry datetimes only
in `stored_at` (TLE records) resp. `timestamp` (API logs). -/
theorem uplink_converts_ids_and_datetimes (st : DbState)
    (ltle llog norad : Int)
    (htle : ∀ d ∈ st.tle_data,
      (d.map Prod.fst).Nodup ∧ dtOnlyAt "stored_at" d = true)
    (hlog : ∀ d ∈ st.api_logs,
      (d.map Prod.fst).Nodup ∧ dtOnlyAt "timestamp" d = true) :
    (∀ e ∈ get_recent_tles ltle st,
      noDtValues e = true ∧ ∃ s, docGet e "_id" = some (.str s))
    ∧ (∀ e ∈ get_system_logs llog st,
      noDtValues e = true ∧ ∃ s, docGet e "_id" = some (.str s))
    ∧ (∀ e ∈ search_satellite norad st,
      noDtValues e = true ∧ ∃ s, docGet e "_id" = some (.str s)) := by
  refine ⟨?_, ?_, ?_⟩
  · intro e he
    obtain ⟨d, hd, rfl⟩ := List.mem_map.mp he
    have hd' : d ∈ st.tle_data := by
      have := mem_applyLimit _ _ _ hd
      rwa [mem_sortDescBy] at this
    obtain ⟨hn, hdt⟩ := htle d hd'
    exact ⟨convertTleDoc_no_dt d hn hdt, _, convertTleDoc_id_str d⟩
  · intro e he
    obtain ⟨d, hd, rfl⟩ := List.mem_map.mp he
    have hd' : d ∈ st.api_logs := by
      have := mem_applyLimit _ _ _ hd
      rwa [mem_sortDescBy] at this
    obtain ⟨hn, hdt⟩ := hlog d hd'
    exact ⟨convertLogDoc_no_dt d hn hdt, _, convertLogDoc_id_str d⟩
  · intro e he
    obtain ⟨d, hd, rfl⟩ := List.mem_map.mp he
    have hd' : d ∈ st.tle_data := by
      rw [mem_sortDescBy] at hd
      exact (List.mem_filter.mp hd).1
    obtain ⟨hn, hdt⟩ := htle d hd'
    exact ⟨convertTleDoc_no_dt d hn hdt, _, convertTleDoc_id_str d⟩

/-- Store with one TLE record and one API-log entry for the C9
witness. -/
def logDb : DbState :=
  ⟨[[("NORAD_CAT_ID", .int 1), ("TLE_LINE1", .str "a"),
     ("TLE_LINE2", .str "b"), ("stored_at", .dt 5), ("_id", .oid 0)]],
   [],
   [[("timestamp", .dt 7), ("method", .str "GET"),
     ("path", .str "/x"), ("_id", .oid 3)]],
   4⟩

/-- Witness for C9 at the default limits over `logDb`: the returned TLE
record and log entry, both fully converted. -/
theorem uplink_converts_ids_and_datetimes_witness :
    (noDtValues [("NORAD_CAT_ID", .int 1), ("TLE_LINE1", .str "a"),
        ("TLE_LINE2", .str "b"), ("stored_at", .str "iso-5"),
        ("_id", .str "oid-0")] = true
      ∧ ∃ s, docGet [("NORAD_CAT_ID", .int 1), ("TLE_LINE1", .str "a"),
        ("TLE_LINE2", .str "b"), ("stored_at", .str "iso-5"),
        ("_id", .str "oid-0")] "_id" = some (.str s))
    ∧ (noDtValues [("timestamp", .str "iso-7"), ("method", .str "GET"),
        ("path", .str "/x"), ("_id", .str "oid-3")] = true
      ∧ ∃ s, docGet [("timestamp", .str "iso-7"), ("method", .str "GET"),
        ("path", .str "/x"), ("_id", .str "oid-3")] "_id"
        = some (.str s)) :=
  ⟨(uplink_converts_ids_and_datetimes logDb RECENT_TLES_DEFAULT_LIMIT
      SYSTEM_LOGS_DEFAULT_LIMIT 1 (by decide) (by decide)).1
      _ (by decide),
   (uplink_converts_ids_and_datetimes logDb RECENT_TLES_DEFAULT_LIMIT
      SYSTEM_LOGS_DEFAULT_LIMIT 1 (by decide) (by decide)).2.1
      _ (by decide)⟩

end OrbitWatch
